import Mathlib

/-!
Verification of the yahoo-fantasy-sports-api-go repository.

Go `float64` values are embedded as exact rationals (`ℚ`); `math.Sqrt`
is an explicit function parameter wherever the source calls it, since
square roots do not stay rational.  Go slices become `List`s, loops
become folds or recursions that mirror the loop body, and Go's
`(value, error)` returns become `Except String`.
-/

namespace YF

/-! ## Data model (flat value structs mirrored from the Go source) -/

/-- `type PlayerProjection struct` from the evaluation service. -/
structure PlayerProjection where
  PlayerID : ℤ
  FPG : ℚ
  PTS : ℚ
  REB : ℚ
  AST : ℚ
  STL : ℚ
  BLK : ℚ
  TO : ℚ
  FGPct : ℚ
  FTPct : ℚ
  TPM : ℚ
  Position : String
deriving DecidableEq, Repr

/-- Helper to build a projection carrying only an id and an FPG value. -/
def pp (id : ℤ) (fpg : ℚ) : PlayerProjection :=
  ⟨id, fpg, 0, 0, 0, 0, 0, 0, 0, 0, 0, ""⟩

/-- `type CategoryScore struct` from the analysis service. -/
structure CategoryScore where
  Category : String
  ZScore : ℚ
deriving DecidableEq, Repr

/-- `type TeamCategoryTotals struct` from the analysis service. -/
structure TeamCategoryTotals where
  PTS : ℚ
  REB : ℚ
  AST : ℚ
  STL : ℚ
  BLK : ℚ
  TO : ℚ
  FGPct : ℚ
  FTPct : ℚ
  TPM : ℚ
deriving DecidableEq, Repr

/-- `type TeamAnalysis struct` from the analysis service.  The Go field
`CategoryScores map[string]float64` is embedded as the underlying
assignment of z-scores to category names. -/
structure TeamAnalysis where
  TeamID : ℤ
  CategoryScores : String → ℚ
  WeakCategories : List CategoryScore
  StrongCategories : List CategoryScore

/-- `type RosterPlayer struct` from the trade service. -/
structure RosterPlayer where
  PlayerID : ℤ
  PlayerName : String
  Position : String
  FPG : ℚ
  IsStarting : Bool
deriving DecidableEq, Repr

/-- `type PlayerValue struct` from the valuation service
(`CategoryProjections` sub-struct kept as the nine category fields). -/
structure PlayerValue where
  PlayerID : ℤ
  LeagueID : ℤ
  FPG : ℚ
  ZScore : ℚ
  PositionRank : ℤ
  OverallRank : ℤ
  ScarcityMultiplier : ℚ
deriving DecidableEq, Repr

/-- Helper to build a player value carrying only an id and an FPG value. -/
def pv (id : ℤ) (fpg : ℚ) : PlayerValue :=
  ⟨id, 0, fpg, 0, 0, 0, 0⟩

/-- `type Stat struct` from `pkg/yahoo/stats.go`. -/
structure Stat where
  StatID : ℤ
  Value : String
  Display : String
  Name : String
  Order : ℤ
deriving DecidableEq, Repr

/-- Helper to build a stat carrying only an id and a value string. -/
def st (id : ℤ) (v : String) : Stat :=
  ⟨id, v, "", "", 0⟩

/-! ## EvaluationService (`part_004`) -/

/-- `func (s *EvaluationService) sumFPG`: loop `total += p.FPG`. -/
def sumFPG (players : List PlayerProjection) : ℚ :=
  players.foldl (fun total p => total + p.FPG) 0

/-- `func (s *EvaluationService) calculateFairnessScore`. -/
def calculateFairnessScore (teamAPlayers teamBPlayers : List PlayerProjection) : ℚ :=
  let teamAValue := sumFPG teamAPlayers
  let teamBValue := sumFPG teamBPlayers
  if teamAValue = 0 ∧ teamBValue = 0 then 100
  else
    let avgValue := (teamAValue + teamBValue) / 2
    if avgValue = 0 then 0
    else
      let valueDelta := |teamAValue - teamBValue|
      let fairnessScore := 100 - valueDelta / avgValue * 100
      if fairnessScore < 0 then 0
      else if fairnessScore > 100 then 100
      else fairnessScore

/-! ## TradeService (`part_002`) -/

/-- `func (s *TradeService) isGoodFit`.  The two `*TeamAnalysis`
arguments are accepted and ignored exactly as in the source. -/
def isGoodFit (playerA playerB : RosterPlayer)
    (_teamAAnalysis _teamBAnalysis : Option TeamAnalysis) : Bool :=
  let valueDiff := playerA.FPG - playerB.FPG
  let avgValue := (playerA.FPG + playerB.FPG) / 2
  if avgValue = 0 then false
  else
    let percentDiff := valueDiff / avgValue * 100
    if percentDiff < -15 ∨ percentDiff > 15 then false
    else true

/-! ## AnalysisService (`part_003`) -/

/-- `func (s *AnalysisService) calculateZScore`.  `sqrt` stands for
`math.Sqrt`. -/
def calculateZScore (sqrt : ℚ → ℚ) (value : ℚ) (allValues : List ℚ) : ℚ :=
  if allValues.length = 0 then 0
  else
    let sum := allValues.foldl (fun s v => s + v) 0
    let mean := sum / (allValues.length : ℚ)
    let variance := allValues.foldl (fun acc v => acc + (v - mean) * (v - mean)) 0
    let stdDev := sqrt (variance / (allValues.length : ℚ))
    if stdDev = 0 then 0
    else (value - mean) / stdDev

/-! ## ValuationService (`pkg/service/trade_service_test.go`) -/

/-- `func (s *ValuationService) calculateStats`: mean and population
standard deviation of the players' FPG values; `sqrt` stands for
`math.Sqrt`. -/
def calculateStats (sqrt : ℚ → ℚ) (players : List PlayerValue) : ℚ × ℚ :=
  if players.length = 0 then (0, 0)
  else
    let sum := players.foldl (fun s p => s + p.FPG) 0
    let mean := sum / (players.length : ℚ)
    let variance :=
      (players.foldl (fun acc p => acc + (p.FPG - mean) * (p.FPG - mean)) 0)
        / (players.length : ℚ)
    (mean, sqrt variance)

/-- `func (s *ValuationService) calculateZScores`: writes
`(FPG - mean) / stdDev` into each player's `ZScore` when `stdDev > 0`,
leaving `ZScore` untouched otherwise. -/
def calculateZScores (sqrt : ℚ → ℚ) (players : List PlayerValue) : List PlayerValue :=
  if players.length = 0 then players
  else
    let ms := calculateStats sqrt players
    players.map (fun p =>
      if ms.2 > 0 then { p with ZScore := (p.FPG - ms.1) / ms.2 } else p)

/-- `func (s *ValuationService) rankPlayers`: each player's
`OverallRank` becomes 1 plus the number of players with strictly
greater FPG.  Only `OverallRank` is written and only `FPG` is read, so
the in-place loop is the same as this map. -/
def rankPlayers (players : List PlayerValue) : List PlayerValue :=
  players.map (fun p =>
    { p with OverallRank := 1 + (players.countP (fun q => q.FPG > p.FPG) : ℤ) })

/-! ## StatHelper (`pkg/yahoo/stats_helper.go`) -/

/-- `func (sh *StatHelper) GetByID`: first stat whose `StatID` matches. -/
def GetByID (stats : List Stat) (statID : ℤ) : String × Bool :=
  match stats with
  | [] => ("", false)
  | s :: rest => if s.StatID = statID then (s.Value, true) else GetByID rest statID

/-- Digit-string to number; `none` on the empty string or a non-digit. -/
def digitsVal : List Char → Option ℕ
  | [] => none
  | cs => cs.foldl (fun acc c =>
      acc.bind (fun n => if c.isDigit then some (n * 10 + (c.toNat - 48)) else none))
      (some 0)

/-- `strconv.Atoi`: optional sign, decimal digits, and the 64-bit range
check (`ErrRange` makes out-of-range strings an error too). -/
def atoi (s : String) : Option ℤ :=
  let signed : Option ℤ :=
    match s.toList with
    | '+' :: rest => (digitsVal rest).map (fun n => (n : ℤ))
    | '-' :: rest => (digitsVal rest).map (fun n => -(n : ℤ))
    | l => (digitsVal l).map (fun n => (n : ℤ))
  signed.bind (fun n => if -(2 ^ 63) ≤ n ∧ n < 2 ^ 63 then some n else none)

/-- `func (sh *StatHelper) GetIntByID`. -/
def GetIntByID (stats : List Stat) (statID : ℤ) : Except String ℤ :=
  let r := GetByID stats statID
  if r.2 = false then .error ("stat ID " ++ toString statID ++ " not found")
  else
    match atoi r.1 with
    | some n => .ok n
    | none => .error ("parsing " ++ r.1 ++ ": invalid syntax")

/-! ## Shared lemmas about the loop folds -/

theorem foldl_add_map (f : α → ℚ) (l : List α) (init : ℚ) :
    l.foldl (fun s x => s + f x) init = init + (l.map f).sum := by
  induction l generalizing init with
  | nil => simp
  | cons a t ih => simp [ih]; ring

theorem sumFPG_eq (players : List PlayerProjection) :
    sumFPG players = (players.map (·.FPG)).sum := by
  simpa using foldl_add_map (·.FPG) players 0

/-! ## C3: the ±15 percent trade-fit gate -/

/-- C3: for every pair of roster players, `TradeService.isGoodFit` returns
`true` exactly when the average FPG is nonzero and the percentage
difference `100·(FPG_A − FPG_B)/((FPG_A + FPG_B)/2)` lies in `[−15, 15]`;
in particular it returns `false` whenever the average FPG is zero. -/
theorem isGoodFit_percent_gate (a b : RosterPlayer) (ta tb : Option TeamAnalysis) :
    isGoodFit a b ta tb = true ↔
      (a.FPG + b.FPG) / 2 ≠ 0 ∧
      -15 ≤ 100 * (a.FPG - b.FPG) / ((a.FPG + b.FPG) / 2) ∧
      100 * (a.FPG - b.FPG) / ((a.FPG + b.FPG) / 2) ≤ 15 := by
  unfold isGoodFit
  by_cases h : (a.FPG + b.FPG) / 2 = 0
  · simp [h]
  · have hcomm : 100 * (a.FPG - b.FPG) / ((a.FPG + b.FPG) / 2) =
        (a.FPG - b.FPG) / ((a.FPG + b.FPG) / 2) * 100 := by ring
    simp only [h, if_false, hcomm, ne_eq, not_false_iff, true_and]
    by_cases hlt : (a.FPG - b.FPG) / ((a.FPG + b.FPG) / 2) * 100 < -15 ∨
        (a.FPG - b.FPG) / ((a.FPG + b.FPG) / 2) * 100 > 15
    · simp only [hlt, if_true]
      constructor
      · intro hfalse; exact absurd hfalse (by simp)
      · rintro ⟨h1, h2⟩
        rcases hlt with h3 | h3 <;> linarith
    · simp only [hlt, if_false, true_iff]
      push_neg at hlt
      exact ⟨hlt.1, hlt.2⟩

/-! ## C4: fairness score of equal team values is 100 -/

/-- C4: whenever the two player lists have equal summed FPG values --
including when both sums are zero -- `calculateFairnessScore` returns
exactly 100. -/
theorem calculateFairnessScore_eq_sums (teamAPlayers teamBPlayers : List PlayerProjection)
    (h : sumFPG teamAPlayers = sumFPG teamBPlayers) :
    calculateFairnessScore teamAPlayers teamBPlayers = 100 := by
  unfold calculateFairnessScore
  by_cases h0 : sumFPG teamAPlayers = 0 ∧ sumFPG teamBPlayers = 0
  · simp [h0]
  · have hA : sumFPG teamAPlayers ≠ 0 := by
      intro hz; exact h0 ⟨hz, by rw [← h]; exact hz⟩
    have havg : (sumFPG teamAPlayers + sumFPG teamBPlayers) / 2 ≠ 0 := by
      rw [← h]; intro hz
      exact hA (by field_simp at hz; linarith)
    simp only [h0, if_false, havg, ← h, sub_self, abs_zero, zero_div, zero_mul, sub_zero]
    norm_num

/-- Closed witness for `calculateFairnessScore_eq_sums` at lists with
equal nonzero sums. -/
theorem calculateFairnessScore_eq_sums_witness :
    sumFPG [pp 1 10] = sumFPG [pp 2 4, pp 3 6] ∧
      calculateFairnessScore [pp 1 10] [pp 2 4, pp 3 6] = 100 :=
  ⟨by norm_num [sumFPG, pp],
   calculateFairnessScore_eq_sums [pp 1 10] [pp 2 4, pp 3 6] (by norm_num [sumFPG, pp])⟩

/-! ## C8: fairness score always lies in [0, 100] -/

/-- C8: for every pair of player lists, also empty ones or ones with
negative FPG values, `calculateFairnessScore` returns a value in the
closed interval `[0, 100]`. -/
theorem calculateFairnessScore_range (teamAPlayers teamBPlayers : List PlayerProjection) :
    0 ≤ calculateFairnessScore teamAPlayers teamBPlayers ∧
      calculateFairnessScore teamAPlayers teamBPlayers ≤ 100 := by
  unfold calculateFairnessScore
  by_cases h0 : sumFPG teamAPlayers = 0 ∧ sumFPG teamBPlayers = 0
  · simp [h0]
  · simp only [h0, if_false]
    by_cases havg : (sumFPG teamAPlayers + sumFPG teamBPlayers) / 2 = 0
    · simp [havg]
    · simp only [havg, if_false]
      set sc := 100 - |sumFPG teamAPlayers - sumFPG teamBPlayers| /
          ((sumFPG teamAPlayers + sumFPG teamBPlayers) / 2) * 100 with hsc
      by_cases hneg : sc < 0
      · simp [hneg]
      · simp only [hneg, if_false]
        by_cases hbig : sc > 100
        · simp [hbig]
        · simp only [hbig, if_false]
          push_neg at hneg hbig
          exact ⟨hneg, hbig⟩

/-! ## C5: z-score of a uniform distribution is 0 -/

/-- C5: for every `sqrt` model of `math.Sqrt`, every non-empty list of
all-equal values and every member `v`, `AnalysisService.calculateZScore`
returns 0: the zero-standard-deviation branch yields 0, and no division
by zero occurs. -/
theorem calculateZScore_uniform (sqrt : ℚ → ℚ) (v : ℚ) (l : List ℚ)
    (hne : l ≠ []) (hall : ∀ x ∈ l, x = v) :
    calculateZScore sqrt v l = 0 := by
  unfold calculateZScore
  have hn : l.length ≠ 0 := by simpa using hne
  have hsum : l.foldl (fun s x => s + x) 0 = (l.length : ℚ) * v := by
    have := foldl_add_map (fun x : ℚ => x) l 0
    simp only [List.map_id_fun', id] at this
    rw [show (fun s x : ℚ => s + x) = fun s x => s + (fun y : ℚ => y) x from rfl, this]
    rw [List.sum_eq_card_nsmul l v hall]
    simp [mul_comm]
  have hmean : l.foldl (fun s x => s + x) 0 / (l.length : ℚ) = v := by
    rw [hsum]
    field_simp
  simp only [hn, if_false, hmean]
  have hvar : l.foldl (fun acc x => acc + (x - v) * (x - v)) 0 = 0 := by
    rw [foldl_add_map (fun x : ℚ => (x - v) * (x - v)) l 0]
    rw [List.sum_eq_zero]
    · simp
    · intro y hy
      rcases List.mem_map.mp hy with ⟨x, hx, rfl⟩
      rw [hall x hx]; ring
  rw [hvar]
  split <;> simp

/-- Closed witness for `calculateZScore_uniform` at the list `[3, 3, 3]`. -/
theorem calculateZScore_uniform_witness :
    ([(3 : ℚ), 3, 3] ≠ []) ∧ calculateZScore (fun x => x) 3 [3, 3, 3] = 0 :=
  ⟨by simp,
   calculateZScore_uniform (fun x => x) 3 [3, 3, 3] (by simp) (by intro x hx; simpa using hx)⟩

/-! ## C6: the z-score code implements the glossary definition -/

/-- The glossary's arithmetic mean of a list of values. -/
def specMean (l : List ℚ) : ℚ := l.sum / (l.length : ℚ)

/-- The glossary's population variance `Σ(v − mean)² / n`; the
population standard deviation is `sqrt` of this. -/
def specVar (l : List ℚ) : ℚ :=
  (l.map (fun v => (v - specMean l) * (v - specMean l))).sum / (l.length : ℚ)

/-- The glossary's z-score `(value − mean) / stdDev`. -/
def specZScore (sqrt : ℚ → ℚ) (value : ℚ) (l : List ℚ) : ℚ :=
  (value - specMean l) / sqrt (specVar l)

theorem foldl_add_id (l : List ℚ) : l.foldl (fun s x => s + x) 0 = l.sum := by
  have := foldl_add_map (fun x : ℚ => x) l 0
  simpa using this

theorem calculateZScore_closed_form (sqrt : ℚ → ℚ) (value : ℚ) (l : List ℚ)
    (hne : l ≠ []) :
    calculateZScore sqrt value l =
      if sqrt (specVar l) = 0 then 0 else specZScore sqrt value l := by
  unfold calculateZScore specZScore specVar specMean
  have hn : l.length ≠ 0 := by simpa using hne
  have hmean : l.foldl (fun s x => s + x) 0 / (l.length : ℚ) = l.sum / (l.length : ℚ) := by
    rw [foldl_add_id]
  have hvar : l.foldl
      (fun acc v => acc + (v - l.sum / (l.length : ℚ)) * (v - l.sum / (l.length : ℚ))) 0 =
      (l.map (fun v => (v - l.sum / (l.length : ℚ)) * (v - l.sum / (l.length : ℚ)))).sum := by
    simpa using foldl_add_map
      (fun v : ℚ => (v - l.sum / (l.length : ℚ)) * (v - l.sum / (l.length : ℚ))) l 0
  simp only [hn, if_false, hmean, hvar]

/-- C6: the z-score computation implements the glossary definition
`(value − mean) / stdDev` with `stdDev = sqrt(Σ(v − mean)²/n)`:
`AnalysisService.calculateZScore` returns exactly that whenever the
standard deviation is nonzero, and `ValuationService.calculateZScores`
assigns every player the same formula over all players' FPG values
whenever the standard deviation is positive. -/
theorem zscore_implements_glossary :
    (∀ (sqrt : ℚ → ℚ) (value : ℚ) (l : List ℚ), l ≠ [] →
      sqrt (specVar l) ≠ 0 →
      calculateZScore sqrt value l = specZScore sqrt value l) ∧
    (∀ (sqrt : ℚ → ℚ) (players : List PlayerValue),
      0 < sqrt (specVar (players.map (·.FPG))) →
      calculateZScores sqrt players =
        players.map (fun p =>
          { p with ZScore := specZScore sqrt p.FPG (players.map (·.FPG)) })) := by
  constructor
  · intro sqrt value l hne hsd
    rw [calculateZScore_closed_form sqrt value l hne]
    simp [hsd]
  · intro sqrt players hsd
    unfold calculateZScores
    by_cases hlen : players.length = 0
    · rw [List.length_eq_zero] at hlen
      simp [hlen]
    · have hstats : calculateStats sqrt players =
          (specMean (players.map (·.FPG)), sqrt (specVar (players.map (·.FPG)))) := by
        unfold calculateStats specMean specVar
        have hsum : players.foldl (fun s p => s + p.FPG) 0 = (players.map (·.FPG)).sum := by
          simpa using foldl_add_map (·.FPG) players 0
        have hvar : ∀ m : ℚ, players.foldl (fun acc p => acc + (p.FPG - m) * (p.FPG - m)) 0 =
            ((players.map (·.FPG)).map (fun v => (v - m) * (v - m))).sum := by
          intro m
          rw [List.map_map]
          simpa using foldl_add_map (fun p : PlayerValue => (p.FPG - m) * (p.FPG - m)) players 0
        simp only [hlen, if_false, hsum, hvar, List.length_map]
        simp [specMean, List.length_map]
      simp only [hlen, if_false, hstats]
      refine List.map_congr_left (fun p _ => ?_)
      simp only [hsd, if_pos]
      rfl

/-- Closed witness for `zscore_implements_glossary`, applying both parts
at concrete inputs with nonzero standard deviation (using the constant-1
square-root model, under which `stdDev = 1`). -/
theorem zscore_implements_glossary_witness :
    calculateZScore (fun _ => 1) 5 [1, 3] = specZScore (fun _ => 1) 5 [1, 3] ∧
      calculateZScores (fun _ => 1) [pv 1 4, pv 2 8] =
        [pv 1 4, pv 2 8].map (fun p =>
          { p with ZScore := specZScore (fun _ => 1) p.FPG ([pv 1 4, pv 2 8].map (·.FPG)) }) :=
  ⟨zscore_implements_glossary.1 (fun _ => 1) 5 [1, 3] (by simp) (by norm_num),
   zscore_implements_glossary.2 (fun _ => 1) [pv 1 4, pv 2 8] (by norm_num)⟩

/-! ## C9: rankPlayers assigns 1 + (number of strictly better players) -/

theorem countP_lt_length {α : Type} (p : α → Bool) (l : List α) (x : α)
    (hx : x ∈ l) (hpx : p x = false) : l.countP p < l.length := by
  induction l with
  | nil => cases hx
  | cons a t ih =>
    rcases List.mem_cons.mp hx with rfl | hxt
    · rw [List.countP_cons, hpx]
      simpa using Nat.lt_succ_of_le (List.countP_le_length p)
    · rw [List.countP_cons, List.length_cons]
      rcases hp : p a with _ | _
      · simpa using Nat.lt_succ_of_lt (ih hxt)
      · simpa using Nat.succ_lt_succ (ih hxt)

/-- C9: after `rankPlayers`, the i-th player's `OverallRank` is 1 plus
the number of players with strictly greater FPG (all other fields
unchanged); hence every rank lies in `[1, n]`, players with equal FPG
get equal ranks, and a non-empty list has a player of rank 1. -/
theorem rankPlayers_spec (players : List PlayerValue) :
    ((rankPlayers players).length = players.length) ∧
    (∀ (i : ℕ) (h : i < players.length),
      (rankPlayers players).get ⟨i, by simpa [rankPlayers] using h⟩ =
        { players.get ⟨i, h⟩ with OverallRank :=
            1 + (players.countP (fun q => q.FPG > (players.get ⟨i, h⟩).FPG) : ℤ) }) ∧
    (∀ p ∈ rankPlayers players,
      1 ≤ p.OverallRank ∧ p.OverallRank ≤ (players.length : ℤ)) ∧
    (∀ p ∈ rankPlayers players, ∀ q ∈ rankPlayers players,
      p.FPG = q.FPG → p.OverallRank = q.OverallRank) ∧
    (players ≠ [] → ∃ p ∈ rankPlayers players, p.OverallRank = 1) := by
  refine ⟨by simp [rankPlayers], ?_, ?_, ?_, ?_⟩
  · intro i h
    simp [rankPlayers]
  · intro p hp
    rcases List.mem_map.mp hp with ⟨q, hq, rfl⟩
    constructor
    · simp only []
      have : (0 : ℤ) ≤ (players.countP (fun r => r.FPG > q.FPG) : ℤ) := Int.ofNat_nonneg _
      omega
    · have hlt : players.countP (fun r => r.FPG > q.FPG) < players.length :=
        countP_lt_length _ players q hq (by simp)
      simp only []
      omega
  · intro p hp q hq hfpg
    rcases List.mem_map.mp hp with ⟨p0, hp0, rfl⟩
    rcases List.mem_map.mp hq with ⟨q0, hq0, rfl⟩
    simp only [] at hfpg ⊢
    rw [hfpg]
  · intro hne
    have hmax : ∃ m ∈ players, ∀ q ∈ players, q.FPG ≤ m.FPG := by
      induction players with
      | nil => cases hne rfl
      | cons a t ih =>
        by_cases ht : t = []
        · subst ht; exact ⟨a, by simp⟩
        · rcases ih ht with ⟨m, hm, hmax⟩
          by_cases hcmp : a.FPG ≤ m.FPG
          · refine ⟨m, List.mem_cons_of_mem a hm, ?_⟩
            intro q hq
            rcases List.mem_cons.mp hq with rfl | hqt
            · exact hcmp
            · exact hmax q hqt
          · refine ⟨a, List.mem_cons_self a t, ?_⟩
            intro q hq
            rcases List.mem_cons.mp hq with rfl | hqt
            · exact le_refl _
            · exact le_trans (hmax q hqt) (le_of_not_le hcmp)
    rcases hmax with ⟨m, hm, hmle⟩
    refine ⟨{ m with OverallRank := 1 + (players.countP (fun q => q.FPG > m.FPG) : ℤ) },
      List.mem_map_of_mem _ hm, ?_⟩
    have hzero : players.countP (fun q => q.FPG > m.FPG) = 0 := by
      rw [List.countP_eq_zero]
      intro q hq
      simpa using hmle q hq
    simp [hzero]

/-- Closed witness for `rankPlayers_spec`: at a concrete three-player
list it yields the indexed-rank formula at index 0 and a rank-1 player. -/
theorem rankPlayers_spec_witness :
    ((rankPlayers [pv 1 5, pv 2 9, pv 3 5]).get ⟨0, by simp [rankPlayers]⟩ =
      { pv 1 5 with OverallRank :=
          1 + ([pv 1 5, pv 2 9, pv 3 5].countP (fun q => q.FPG > (5 : ℚ)) : ℤ) }) ∧
    (∃ p ∈ rankPlayers [pv 1 5, pv 2 9, pv 3 5], p.OverallRank = 1) := by
  constructor
  · have h := (rankPlayers_spec [pv 1 5, pv 2 9, pv 3 5]).2.1 0 (by simp)
    simpa [pv] using h
  · exact (rankPlayers_spec [pv 1 5, pv 2 9, pv 3 5]).2.2.2.2 (by simp)

/-! ## C10: StatHelper lookup and integer parsing -/

/-- C10: `GetByID` returns the `Value` of the first stat whose `StatID`
matches together with `true`, and `("", false)` exactly when no stat
matches; `GetIntByID` fails exactly when the ID is absent or the first
matching value does not parse as an integer. -/
theorem getByID_spec (stats : List Stat) (statID : ℤ) :
    (GetByID stats statID =
      ((stats.find? (fun s => s.StatID == statID)).elim ("", false)
        (fun s => (s.Value, true)))) ∧
    ((GetByID stats statID).2 = false ↔ ∀ s ∈ stats, s.StatID ≠ statID) ∧
    ((GetIntByID stats statID).isOk = false ↔
      (∀ s ∈ stats, s.StatID ≠ statID) ∨
      ∃ s0, stats.find? (fun s => s.StatID == statID) = some s0 ∧ atoi s0.Value = none) := by
  have hfind : GetByID stats statID =
      ((stats.find? (fun s => s.StatID == statID)).elim ("", false)
        (fun s => (s.Value, true))) := by
    induction stats with
    | nil => simp [GetByID]
    | cons a t ih =>
      by_cases ha : a.StatID = statID
      · simp [GetByID, ha, List.find?]
      · rw [GetByID, List.find?]
        have : (a.StatID == statID) = false := by simpa using ha
        simp only [ha, if_false, this, ih]
  have hsnd : (GetByID stats statID).2 = false ↔ ∀ s ∈ stats, s.StatID ≠ statID := by
    rcases hf : stats.find? (fun s => s.StatID == statID) with _ | s0
    · rw [hfind, hf]
      simp only [Option.elim]
      constructor
      · intro _ s hs hid
        have := List.find?_eq_none.mp hf s hs
        simp [hid] at this
      · intro _; trivial
    · rw [hfind, hf]
      simp only [Option.elim]
      constructor
      · intro hfalse; cases hfalse
      · intro hall
        have hmem := List.mem_of_find?_eq_some hf
        have hid := List.find?_some hf
        exact absurd (by simpa using hid) (hall s0 hmem)
  refine ⟨hfind, hsnd, ?_⟩
  rcases hf : stats.find? (fun s => s.StatID == statID) with _ | s0
  · have h2 : (GetByID stats statID).2 = false := by
      rw [hfind, hf]; rfl
    have habsent : ∀ s ∈ stats, s.StatID ≠ statID := hsnd.mp h2
    have herr : GetIntByID stats statID =
        .error ("stat ID " ++ toString statID ++ " not found") := by
      simp [GetIntByID, h2]
    rw [herr]
    constructor
    · intro _; exact Or.inl habsent
    · intro _; rfl
  · have h2 : (GetByID stats statID).2 = true := by
      rw [hfind, hf]; rfl
    have h1 : (GetByID stats statID).1 = s0.Value := by
      rw [hfind, hf]; rfl
    have hpresent : ¬ ∀ s ∈ stats, s.StatID ≠ statID := by
      intro hall
      have hmem := List.mem_of_find?_eq_some hf
      have hid := List.find?_some hf
      exact absurd (by simpa using hid) (hall s0 hmem)
    have hbody : GetIntByID stats statID =
        (match atoi s0.Value with
          | some n => Except.ok n
          | none => Except.error ("parsing " ++ s0.Value ++ ": invalid syntax")) := by
      simp [GetIntByID, h2, h1]
    rcases hatoi : atoi s0.Value with _ | n
    · rw [hbody, hatoi]
      constructor
      · intro _; exact Or.inr ⟨s0, hf, hatoi⟩
      · intro _; rfl
    · rw [hbody, hatoi]
      constructor
      · intro hfalse; cases hfalse
      · rintro (hall | ⟨s1, hs1, hs1atoi⟩)
        · exact absurd hall hpresent
        · have hs0 : s0 = s1 := by rw [hf] at hs1; injection hs1
          rw [← hs0, hatoi] at hs1atoi; cases hs1atoi

/-- Closed witness for `getByID_spec`: at a concrete stat list, a
missing ID yields `false` and `GetIntByID` errors on it. -/
theorem getByID_spec_witness :
    ((GetByID [st 5 "12", st 9 "q"] 7).2 = false) ∧
      (GetIntByID [st 5 "12", st 9 "q"] 9).isOk = false :=
  ⟨(getByID_spec [st 5 "12", st 9 "q"] 7).2.1.mpr (by decide),
   (getByID_spec [st 5 "12", st 9 "q"] 9).2.2.mpr (Or.inr ⟨st 9 "q", by decide, by decide⟩)⟩

/-! ## C7: APICache keeps one row per key (`part_006`) -/

/-- A row of the `yahoo_api_cache` table: `cache_key`, `cache_value`,
`expires_at` (time as a natural-number stamp). -/
structure CacheRow where
  key : String
  value : String
  expiresAt : ℕ
deriving DecidableEq, Repr

/-- The cache table as the list of its rows. -/
abbrev CacheTable := List CacheRow

/-- Modelled from the spec: the `CREATE TABLE` for `yahoo_api_cache` is
not under `src/`; the spec states a uniqueness constraint, "one cache
row per key".  Under that constraint SQLite's `INSERT OR REPLACE`
(used by `APICache.Set`) deletes any row with the conflicting
`cache_key` and inserts the new row with expiry `now + ttl`. -/
def cacheSet (tbl : CacheTable) (key jsonValue : String) (now ttl : ℕ) : CacheTable :=
  tbl.filter (fun r => r.key ≠ key) ++ [⟨key, jsonValue, now + ttl⟩]

/-- `func (c *APICache) Delete`: `DELETE ... WHERE cache_key = ?`. -/
def cacheDelete (tbl : CacheTable) (key : String) : CacheTable :=
  tbl.filter (fun r => r.key ≠ key)

/-- `func (c *APICache) Get`: select the row for `key`; error when
absent; when `time.Now().After(expires_at)`, delete the row and report
"cache expired"; otherwise return the stored value.  Returns the
result together with the table Go's `Delete` call leaves behind. -/
def cacheGet (tbl : CacheTable) (key : String) (now : ℕ) :
    Except String String × CacheTable :=
  match tbl.find? (fun r => r.key = key) with
  | none => (.error "sql: no rows in result set", tbl)
  | some r =>
    if r.expiresAt < now then (.error "cache expired", cacheDelete tbl key)
    else (.ok r.value, tbl)

/-- `func (c *APICache) CleanExpired`: `DELETE ... WHERE expires_at < now`. -/
def cacheCleanExpired (tbl : CacheTable) (now : ℕ) : CacheTable :=
  tbl.filter (fun r => ¬ r.expiresAt < now)

/-- The "one cache row per key" invariant. -/
def keysUnique (tbl : CacheTable) : Prop := (tbl.map (·.key)).Nodup

theorem keysUnique_filter (tbl : CacheTable) (q : CacheRow → Bool)
    (h : keysUnique tbl) : keysUnique (tbl.filter q) := by
  unfold keysUnique at h ⊢
  exact List.Nodup.sublist ((List.filter_sublist tbl).map (·.key)) h

/-- C7: every cache operation preserves the one-row-per-key invariant;
`Set` on a present key replaces rather than duplicates (exactly one row
for the key remains, carrying the new value and expiry), and a `Get` of
that key before expiry returns the most recently set value. -/
theorem apiCache_one_row_per_key (tbl : CacheTable) (key jsonValue : String)
    (now ttl : ℕ) :
    (keysUnique tbl → keysUnique (cacheSet tbl key jsonValue now ttl)) ∧
    (keysUnique tbl → keysUnique (cacheDelete tbl key)) ∧
    (keysUnique tbl → keysUnique (cacheCleanExpired tbl now)) ∧
    (keysUnique tbl → keysUnique (cacheGet tbl key now).2) ∧
    ((cacheSet tbl key jsonValue now ttl).filter (fun r => r.key = key) =
      [⟨key, jsonValue, now + ttl⟩]) ∧
    (∀ now2 : ℕ, now2 ≤ now + ttl →
      (cacheGet (cacheSet tbl key jsonValue now ttl) key now2).1 = .ok jsonValue) := by
  have hfilterset : (cacheSet tbl key jsonValue now ttl).filter (fun r => r.key = key) =
      [⟨key, jsonValue, now + ttl⟩] := by
    unfold cacheSet
    have h1 : (tbl.filter (fun r => r.key ≠ key)).filter (fun r => r.key = key) = [] := by
      apply List.filter_eq_nil_iff.mpr
      intro r hr
      have := List.of_mem_filter hr
      simpa using this
    have h2 : List.filter (fun r : CacheRow => r.key = key) [⟨key, jsonValue, now + ttl⟩] =
        [⟨key, jsonValue, now + ttl⟩] := by simp
    rw [List.filter_append, h1, h2, List.nil_append]
  have hfind : (cacheSet tbl key jsonValue now ttl).find? (fun r => r.key = key) =
      some ⟨key, jsonValue, now + ttl⟩ := by
    unfold cacheSet
    rw [List.find?_append]
    have h1 : (tbl.filter (fun r => r.key ≠ key)).find? (fun r => r.key = key) = none := by
      apply List.find?_eq_none.mpr
      intro r hr
      have := List.of_mem_filter hr
      simpa using this
    rw [h1]
    simp
  refine ⟨?_, ?_, ?_, ?_, hfilterset, ?_⟩
  · intro h
    unfold cacheSet keysUnique
    rw [List.map_append]
    apply List.Nodup.append
    · exact keysUnique_filter tbl _ h
    · simp
    · intro a ha hb
      simp only [List.map_cons, List.map_nil, List.mem_singleton] at hb
      rcases List.mem_map.mp ha with ⟨r, hr, rfl⟩
      have := List.of_mem_filter hr
      simp only [decide_not] at this
      exact absurd hb (by simpa using this)
  · intro h; exact keysUnique_filter tbl _ h
  · intro h; exact keysUnique_filter tbl _ h
  · intro h
    unfold cacheGet
    rcases hf : tbl.find? (fun r => r.key = key) with _ | r <;> simp only [hf]
    · exact h
    · by_cases hex : r.expiresAt < now <;> simp only [hex, if_true, if_false, ite_true, ite_false]
      · exact keysUnique_filter tbl _ h
      · exact h
  · intro now2 hnow2
    unfold cacheGet
    rw [hfind]
    have : ¬ (now + ttl < now2) := by omega
    simp [this]

/-- Closed witness for `apiCache_one_row_per_key`: setting an existing
key in a concrete two-row table keeps one row for it, and reading it
back before expiry returns the new value. -/
theorem apiCache_one_row_per_key_witness :
    keysUnique (cacheSet [⟨"a", "old", 5⟩, ⟨"b", "x", 9⟩] "a" "new" 4 6) ∧
    ((cacheSet [⟨"a", "old", 5⟩, ⟨"b", "x", 9⟩] "a" "new" 4 6).filter
        (fun r => r.key = "a") = [⟨"a", "new", 10⟩]) ∧
    (cacheGet (cacheSet [⟨"a", "old", 5⟩, ⟨"b", "x", 9⟩] "a" "new" 4 6) "a" 7).1 =
      .ok "new" := by
  have h := apiCache_one_row_per_key [⟨"a", "old", 5⟩, ⟨"b", "x", 9⟩] "a" "new" 4 6
  exact ⟨h.1 (by unfold keysUnique; decide), h.2.2.2.2.1, h.2.2.2.2.2 7 (by omega)⟩

/-! ## C2: analyzeTeam and map iteration order (`part_003`)

`analyzeTeam` builds a `map[string]float64` of z-scores and then ranges
over it; Go's map iteration order is unspecified, so the embedding takes
the iteration order as an explicit `order : List String` parameter
ranging over permutations of the nine category keys.  `sort.Slice` with
`less = ZScore <` guarantees a list that is a permutation of the input
and sorted by `ZScore ≤`; insertion sort is taken as the deterministic
model of it. -/

/-- The nine category keys of the `categories`/`zScores` maps. -/
def categoryKeys : List String :=
  ["PTS", "REB", "AST", "STL", "BLK", "TO", "FG%", "FT%", "3PM"]

/-- The z-score assignment `analyzeTeam` stores in its `zScores` map:
per category, `calculateZScore` of the team's total against all teams'
totals, negated for turnovers. -/
def zScoresOf (sqrt : ℚ → ℚ) (totals : TeamCategoryTotals)
    (allTeams : List (ℤ × TeamCategoryTotals)) : String → ℚ := fun cat =>
  if cat = "PTS" then calculateZScore sqrt totals.PTS (allTeams.map (·.2.PTS))
  else if cat = "REB" then calculateZScore sqrt totals.REB (allTeams.map (·.2.REB))
  else if cat = "AST" then calculateZScore sqrt totals.AST (allTeams.map (·.2.AST))
  else if cat = "STL" then calculateZScore sqrt totals.STL (allTeams.map (·.2.STL))
  else if cat = "BLK" then calculateZScore sqrt totals.BLK (allTeams.map (·.2.BLK))
  else if cat = "TO" then calculateZScore sqrt totals.TO (allTeams.map (·.2.TO)) * (-1)
  else if cat = "FG%" then calculateZScore sqrt totals.FGPct (allTeams.map (·.2.FGPct))
  else if cat = "FT%" then calculateZScore sqrt totals.FTPct (allTeams.map (·.2.FTPct))
  else if cat = "3PM" then calculateZScore sqrt totals.TPM (allTeams.map (·.2.TPM))
  else 0

/-- Ascending `sort.Slice` on `ZScore` (insertion-sort model). -/
def sortByZScore (l : List CategoryScore) : List CategoryScore :=
  List.insertionSort (fun a b => a.ZScore ≤ b.ZScore) l

/-- Descending `sort.Slice` on `ZScore`, applied to the strong slice. -/
def sortByZScoreDesc (l : List CategoryScore) : List CategoryScore :=
  List.insertionSort (fun a b => b.ZScore ≤ a.ZScore) l

/-- `func (s *AnalysisService) analyzeTeam`, with the map iteration
order over the `zScores` keys made explicit. -/
def analyzeTeam (sqrt : ℚ → ℚ) (teamID : ℤ) (totals : TeamCategoryTotals)
    (allTeams : List (ℤ × TeamCategoryTotals)) (order : List String) : TeamAnalysis :=
  let zScores := zScoresOf sqrt totals allTeams
  let scores := order.map (fun cat => CategoryScore.mk cat (zScores cat))
  let sorted := sortByZScore scores
  let weak := sorted.take 3
  let strong := sortByZScoreDesc (sorted.drop (sorted.length - 3))
  ⟨teamID, zScores, weak, strong⟩

/-- Totals with every category equal, so that every z-score ties at 0. -/
def tiedTotals : TeamCategoryTotals := ⟨1, 1, 1, 1, 1, 1, 1, 1, 1⟩

/-- C2 counterexample: with two identical teams every z-score is 0, and
two map iteration orders over the same inputs give different
`WeakCategories` lists, so `analyzeTeam` is not independent of map
iteration order. -/
theorem analyzeTeam_order_sensitive :
    (categoryKeys.reverse).Perm categoryKeys ∧
    (analyzeTeam (fun _ => 0) 1 tiedTotals [(1, tiedTotals), (2, tiedTotals)]
        categoryKeys).WeakCategories ≠
      (analyzeTeam (fun _ => 0) 1 tiedTotals [(1, tiedTotals), (2, tiedTotals)]
        categoryKeys.reverse).WeakCategories := by
  constructor
  · decide
  · have hs : ∀ o : List String,
        (analyzeTeam (fun _ => 0) 1 tiedTotals [(1, tiedTotals), (2, tiedTotals)]
          o).WeakCategories =
        (sortByZScore (o.map (fun cat => CategoryScore.mk cat
          (zScoresOf (fun _ => 0) tiedTotals [(1, tiedTotals), (2, tiedTotals)] cat)))).take 3 :=
      fun o => rfl
    rw [hs, hs]
    have hmap1 : categoryKeys.map (fun cat => CategoryScore.mk cat
        (zScoresOf (fun _ => 0) tiedTotals [(1, tiedTotals), (2, tiedTotals)] cat)) =
        [⟨"PTS", 0⟩, ⟨"REB", 0⟩, ⟨"AST", 0⟩, ⟨"STL", 0⟩, ⟨"BLK", 0⟩, ⟨"TO", 0⟩,
          ⟨"FG%", 0⟩, ⟨"FT%", 0⟩, ⟨"3PM", 0⟩] := by
      norm_num [categoryKeys, zScoresOf, calculateZScore, tiedTotals]
    have hmap2 : categoryKeys.reverse.map (fun cat => CategoryScore.mk cat
        (zScoresOf (fun _ => 0) tiedTotals [(1, tiedTotals), (2, tiedTotals)] cat)) =
        [⟨"3PM", 0⟩, ⟨"FT%", 0⟩, ⟨"FG%", 0⟩, ⟨"TO", 0⟩, ⟨"BLK", 0⟩, ⟨"STL", 0⟩,
          ⟨"AST", 0⟩, ⟨"REB", 0⟩, ⟨"PTS", 0⟩] := by
      norm_num [categoryKeys, zScoresOf, calculateZScore, tiedTotals]
    rw [hmap1, hmap2]
    decide

/-- Two sorted lists that are permutations of each other and whose
z-score values are pairwise distinct are equal. -/
theorem sorted_unique_of_nodup_z (l₁ : List CategoryScore) :
    ∀ l₂ : List CategoryScore, l₁.Perm l₂ →
      l₁.Pairwise (fun a b => a.ZScore ≤ b.ZScore) →
      l₂.Pairwise (fun a b => a.ZScore ≤ b.ZScore) →
      (l₁.map (·.ZScore)).Nodup → l₁ = l₂ := by
  induction l₁ with
  | nil =>
    intro l₂ hp _ _ _
    exact (hp.symm.eq_nil).symm
  | cons x xs ih =>
    intro l₂ hp h₁ h₂ hnd
    rw [List.map_cons] at hnd
    cases l₂ with
    | nil => simpa using hp.length_eq
    | cons y ys =>
      by_cases hxy : x = y
      · subst hxy
        have hp' := hp.cons_inv
        have h₁t := (List.pairwise_cons.mp h₁).2
        have h₂t := (List.pairwise_cons.mp h₂).2
        have hndt : (xs.map (·.ZScore)).Nodup := (List.nodup_cons.mp hnd).2
        rw [ih ys hp' h₁t h₂t hndt]
      · have hx2 : x ∈ y :: ys := hp.subset (List.mem_cons_self x xs)
        have hxys : x ∈ ys := by
          rcases List.mem_cons.mp hx2 with h | h
          · exact absurd h hxy
          · exact h
        have hy1 : y ∈ x :: xs := hp.symm.subset (List.mem_cons_self y ys)
        have hyxs : y ∈ xs := by
          rcases List.mem_cons.mp hy1 with h | h
          · exact absurd h.symm hxy
          · exact h
        have hxz : x.ZScore ≤ y.ZScore := (List.pairwise_cons.mp h₁).1 y hyxs
        have hyz : y.ZScore ≤ x.ZScore := (List.pairwise_cons.mp h₂).1 x hxys
        have heq : x.ZScore = y.ZScore := le_antisymm hxz hyz
        have hmem : x.ZScore ∈ xs.map (·.ZScore) := by
          rw [heq]; exact List.mem_map_of_mem _ hyxs
        have hnd' := List.nodup_cons.mp hnd
        exact absurd hmem hnd'.1

/-- C2 amended: `analyzeTeam` is a deterministic function of the totals
and the map iteration order, and whenever the z-scores of the iterated
categories are pairwise distinct its result does not depend on the
iteration order at all; the counterexample shows the lists can differ
between iteration orders when z-scores tie. -/
theorem analyzeTeam_order_independent (sqrt : ℚ → ℚ) (teamID : ℤ)
    (totals : TeamCategoryTotals) (allTeams : List (ℤ × TeamCategoryTotals))
    (o₁ o₂ : List String) (hperm : o₁.Perm o₂)
    (hnd : (o₁.map (zScoresOf sqrt totals allTeams)).Nodup) :
    analyzeTeam sqrt teamID totals allTeams o₁ =
      analyzeTeam sqrt teamID totals allTeams o₂ := by
  have hpermf : (o₁.map (fun cat =>
      CategoryScore.mk cat (zScoresOf sqrt totals allTeams cat))).Perm
      (o₂.map (fun cat => CategoryScore.mk cat (zScoresOf sqrt totals allTeams cat))) :=
    hperm.map _
  haveI : IsTotal CategoryScore (fun a b => a.ZScore ≤ b.ZScore) :=
    ⟨fun a b => le_total a.ZScore b.ZScore⟩
  haveI : IsTrans CategoryScore (fun a b => a.ZScore ≤ b.ZScore) :=
    ⟨fun _ _ _ hab hbc => le_trans hab hbc⟩
  have hkey : sortByZScore (o₁.map (fun cat =>
      CategoryScore.mk cat (zScoresOf sqrt totals allTeams cat))) =
      sortByZScore (o₂.map (fun cat =>
        CategoryScore.mk cat (zScoresOf sqrt totals allTeams cat))) := by
    apply sorted_unique_of_nodup_z
    · exact ((List.perm_insertionSort _ _).trans hpermf).trans
        (List.perm_insertionSort _ _).symm
    · exact List.sorted_insertionSort _ _
    · exact List.sorted_insertionSort _ _
    · have hp2 : ((sortByZScore (o₁.map (fun cat =>
          CategoryScore.mk cat (zScoresOf sqrt totals allTeams cat)))).map
          (·.ZScore)).Perm (o₁.map (zScoresOf sqrt totals allTeams)) := by
        have := (List.perm_insertionSort (fun a b : CategoryScore => a.ZScore ≤ b.ZScore)
          (o₁.map (fun cat => CategoryScore.mk cat (zScoresOf sqrt totals allTeams cat)))).map
          (·.ZScore)
        simpa [List.map_map, Function.comp] using this
      exact hp2.symm.nodup hnd
  simp only [analyzeTeam]
  rw [hkey]

/-- Totals giving nine pairwise distinct z-scores against a zero team
(under the constant-1 square-root model the z-scores come out as
1, 2, 3, 4, 5, −6, 7, 8, 9). -/
def spreadTotals : TeamCategoryTotals := ⟨2, 4, 6, 8, 10, 12, 14, 16, 18⟩

/-- The all-zero totals used as the second team. -/
def zeroTotals : TeamCategoryTotals := ⟨0, 0, 0, 0, 0, 0, 0, 0, 0⟩

/-- Closed witness for `analyzeTeam_order_independent` at an input with
pairwise distinct z-scores and two opposite iteration orders. -/
theorem analyzeTeam_order_independent_witness :
    (categoryKeys.map
      (zScoresOf (fun _ => 1) spreadTotals [(1, spreadTotals), (2, zeroTotals)])).Nodup ∧
    analyzeTeam (fun _ => 1) 1 spreadTotals [(1, spreadTotals), (2, zeroTotals)]
        categoryKeys =
      analyzeTeam (fun _ => 1) 1 spreadTotals [(1, spreadTotals), (2, zeroTotals)]
        categoryKeys.reverse := by
  have hz : categoryKeys.map
      (zScoresOf (fun _ => 1) spreadTotals [(1, spreadTotals), (2, zeroTotals)]) =
      [1, 2, 3, 4, 5, -6, 7, 8, 9] := by
    norm_num [categoryKeys, zScoresOf, calculateZScore, spreadTotals, zeroTotals]
    decide
  have hnd : (categoryKeys.map
      (zScoresOf (fun _ => 1) spreadTotals [(1, spreadTotals), (2, zeroTotals)])).Nodup := by
    rw [hz]; norm_num
  exact ⟨hnd, analyzeTeam_order_independent (fun _ => 1) 1 spreadTotals
    [(1, spreadTotals), (2, zeroTotals)] categoryKeys categoryKeys.reverse
    (List.reverse_perm categoryKeys).symm hnd⟩

/-! ## C1: the Client retry policy (`part_006`)

`Client.makeRequest` and `Client.refreshAccessToken` are embedded with
the HTTP transport as an explicit list of responses, consumed one per
`httpClient.Do` call (the empty list models a transport error), and
`json.Unmarshal` of the token response as an explicit `parse` function.
Every issued request is recorded in a trace, so retry behaviour is the
shape of that trace. -/

/-- An HTTP response: status code and body. -/
structure HttpResponse where
  status : ℕ
  body : String
deriving DecidableEq, Repr

/-- `type tokenResponse struct` (access_token, refresh_token,
expires_in). -/
structure TokenResponse where
  accessToken : String
  refreshToken : String
  expiresIn : ℕ
deriving DecidableEq, Repr

/-- The token fields of `type Client struct` that `makeRequest` and
`refreshAccessToken` read and write. -/
structure ClientState where
  accessToken : String
  refreshToken : String
deriving DecidableEq, Repr

/-- A request issued over the wire: an API GET carrying a bearer token,
or the POST to the token endpoint. -/
inductive SentRequest
  | api (token : String) (endpoint : String)
  | tokenRefresh
deriving DecidableEq, Repr

/-- `strings.Contains` on the underlying character lists. -/
def listContains (sub : List Char) : List Char → Bool
  | [] => decide (sub = [])
  | c :: t => sub.isPrefixOf (c :: t) || listContains sub t

/-- `strings.Contains s sub`. -/
def strContains (s sub : String) : Bool := listContains sub.toList s.toList

/-- `func (c *Client) refreshAccessToken`: fail without a refresh
token; POST to the token endpoint (one transport response consumed);
non-200 and unparseable responses are errors; on success the access
token is replaced and the refresh token updated when non-empty.
Returns (result, new client state, remaining transport, issued
requests). -/
def refreshAccessToken (parse : String → Option TokenResponse) (st : ClientState)
    (net : List HttpResponse) :
    Except String Unit × ClientState × List HttpResponse × List SentRequest :=
  if st.refreshToken = "" then (.error "no refresh token available", st, net, [])
  else
    match net with
    | [] => (.error "failed to refresh token", st, [], [.tokenRefresh])
    | resp :: rest =>
      if resp.status ≠ 200 then
        (.error ("token refresh failed (status " ++ toString resp.status ++ "): " ++ resp.body),
          st, rest, [.tokenRefresh])
      else
        match parse resp.body with
        | none => (.error "failed to parse token response", st, rest, [.tokenRefresh])
        | some tr =>
          (.ok (),
            { accessToken := tr.accessToken,
              refreshToken := if tr.refreshToken ≠ "" then tr.refreshToken else st.refreshToken },
            rest, [.tokenRefresh])

/-- `func (c *Client) makeRequest`: error when no access token; one GET
with the bearer token; only a 401 whose body contains `token_expired`
triggers `refreshAccessToken` and, when that succeeds, a single retry
with the refreshed token; every response then passes the final
status-200 check and is otherwise wrapped as a `Yahoo API error`.
Returns (result, new client state, issued requests). -/
def makeRequest (parse : String → Option TokenResponse) (st : ClientState)
    (net : List HttpResponse) (endpoint : String) :
    Except String String × ClientState × List SentRequest :=
  if st.accessToken = "" then
    (.error "Yahoo access token not configured - set YAHOO_ACCESS_TOKEN environment variable",
      st, [])
  else
    match net with
    | [] => (.error "failed to make request", st, [.api st.accessToken endpoint])
    | resp :: rest =>
      if resp.status = 401 ∧ strContains resp.body "token_expired" = true then
        match refreshAccessToken parse st rest with
        | (.error e, st₂, _, rreqs) =>
          (.error ("failed to refresh expired token: " ++ e), st₂,
            .api st.accessToken endpoint :: rreqs)
        | (.ok _, st₂, rest₂, rreqs) =>
          match rest₂ with
          | [] =>
            (.error "failed to retry request", st₂,
              .api st.accessToken endpoint :: rreqs ++ [.api st₂.accessToken endpoint])
          | resp₂ :: _ =>
            if resp₂.status ≠ 200 then
              (.error ("Yahoo API error (status " ++ toString resp₂.status ++ "): " ++
                  resp₂.body), st₂,
                .api st.accessToken endpoint :: rreqs ++ [.api st₂.accessToken endpoint])
            else
              (.ok resp₂.body, st₂,
                .api st.accessToken endpoint :: rreqs ++ [.api st₂.accessToken endpoint])
      else
        if resp.status ≠ 200 then
          (.error ("Yahoo API error (status " ++ toString resp.status ++ "): " ++ resp.body),
            st, [.api st.accessToken endpoint])
        else (.ok resp.body, st, [.api st.accessToken endpoint])

/-- C1 counterexample: a 401 response whose body lacks the
`token_expired` marker triggers no token refresh and no retry -- the
request trace holds exactly the one original GET and the wrapped error
is returned, refuting "an HTTP 401 response triggers exactly one
token-refresh-and-retry". -/
theorem makeRequest_401_no_marker_no_retry :
    (makeRequest (fun _ => none) ⟨"tok", "ref"⟩ [⟨401, "Unauthorized"⟩] "leagues").1 =
      .error "Yahoo API error (status 401): Unauthorized" ∧
    (makeRequest (fun _ => none) ⟨"tok", "ref"⟩ [⟨401, "Unauthorized"⟩] "leagues").2.2 =
      [.api "tok" "leagues"] := by
  constructor
  · rfl
  · rfl

theorem refreshAccessToken_trace (parse : String → Option TokenResponse)
    (st : ClientState) (net : List HttpResponse) :
    ((refreshAccessToken parse st net).2.2.2 = [] ∨
      (refreshAccessToken parse st net).2.2.2 = [.tokenRefresh]) ∧
    (∀ u st₂ net₂ rreqs,
      refreshAccessToken parse st net = (.ok u, st₂, net₂, rreqs) →
      rreqs = [.tokenRefresh]) := by
  unfold refreshAccessToken
  by_cases h0 : st.refreshToken = ""
  · simp [h0]
  · simp only [h0, if_false]
    cases net with
    | nil => simp
    | cons resp rest =>
      by_cases hs : resp.status ≠ 200
      · simp [hs]
      · simp only [hs, if_false, ite_false]
        cases hp : parse resp.body with
        | none => simp
        | some tr => simp

/-- C1 amended: with a configured access token, only a 401 response
whose body contains `token_expired` triggers the refresh-and-retry
path; any other response (a non-marker 401 included) produces exactly
one API request -- wrapped error when non-200, body when 200.  On the
marker path: a failed refresh yields the wrapped refresh error with no
retry, and a successful refresh issues exactly one token-refresh
request and exactly one retry carrying the refreshed token, whose
response is then returned as-is (body on 200, wrapped error
otherwise), with no further attempts. -/
theorem makeRequest_retry_policy (parse : String → Option TokenResponse)
    (st : ClientState) (endpoint : String) (resp : HttpResponse)
    (rest : List HttpResponse) (hTok : st.accessToken ≠ "") :
    (¬ (resp.status = 401 ∧ strContains resp.body "token_expired" = true) →
      (makeRequest parse st (resp :: rest) endpoint).2.2 =
        [.api st.accessToken endpoint] ∧
      (makeRequest parse st (resp :: rest) endpoint).2.1 = st ∧
      (resp.status = 200 →
        (makeRequest parse st (resp :: rest) endpoint).1 = .ok resp.body) ∧
      (resp.status ≠ 200 →
        (makeRequest parse st (resp :: rest) endpoint).1 =
          .error ("Yahoo API error (status " ++ toString resp.status ++ "): " ++
            resp.body))) ∧
    (resp.status = 401 → strContains resp.body "token_expired" = true →
      (∀ e st₂ net₂ rreqs,
        refreshAccessToken parse st rest = (.error e, st₂, net₂, rreqs) →
        (makeRequest parse st (resp :: rest) endpoint).1 =
          .error ("failed to refresh expired token: " ++ e) ∧
        (makeRequest parse st (resp :: rest) endpoint).2.2 =
          .api st.accessToken endpoint :: rreqs ∧
        (rreqs = [] ∨ rreqs = [.tokenRefresh])) ∧
      (∀ u st₂ net₂ rreqs,
        refreshAccessToken parse st rest = (.ok u, st₂, net₂, rreqs) →
        rreqs = [.tokenRefresh] ∧
        (makeRequest parse st (resp :: rest) endpoint).2.2 =
          [.api st.accessToken endpoint, .tokenRefresh, .api st₂.accessToken endpoint] ∧
        (∀ resp₂ t₂, net₂ = resp₂ :: t₂ →
          (resp₂.status = 200 →
            (makeRequest parse st (resp :: rest) endpoint).1 = .ok resp₂.body) ∧
          (resp₂.status ≠ 200 →
            (makeRequest parse st (resp :: rest) endpoint).1 =
              .error ("Yahoo API error (status " ++ toString resp₂.status ++ "): " ++
                resp₂.body))) ∧
        (net₂ = [] →
          (makeRequest parse st (resp :: rest) endpoint).1 =
            .error "failed to retry request"))) := by
  constructor
  · intro hnot
    by_cases h200 : resp.status = 200
    · have hM : makeRequest parse st (resp :: rest) endpoint =
          (.ok resp.body, st, [.api st.accessToken endpoint]) := by
        simp [makeRequest, hTok, hnot, h200]
      rw [hM]
      exact ⟨rfl, rfl, fun _ => rfl, fun hne => absurd h200 hne⟩
    · have hM : makeRequest parse st (resp :: rest) endpoint =
          (.error ("Yahoo API error (status " ++ toString resp.status ++ "): " ++
            resp.body), st, [.api st.accessToken endpoint]) := by
        simp [makeRequest, hTok, hnot, h200]
      rw [hM]
      exact ⟨rfl, rfl, fun h => absurd h h200, fun _ => rfl⟩
  · intro h401 hmarker
    have hcond : resp.status = 401 ∧ strContains resp.body "token_expired" = true :=
      ⟨h401, hmarker⟩
    constructor
    · intro e st₂ net₂ rreqs hR
      have hM : makeRequest parse st (resp :: rest) endpoint =
          (.error ("failed to refresh expired token: " ++ e), st₂,
            .api st.accessToken endpoint :: rreqs) := by
        simp [makeRequest, hTok, hcond, hR]
      rw [hM]
      refine ⟨rfl, rfl, ?_⟩
      have htr := (refreshAccessToken_trace parse st rest).1
      rw [hR] at htr
      simpa using htr
    · intro u st₂ net₂ rreqs hR
      have hrr : rreqs = [.tokenRefresh] :=
        (refreshAccessToken_trace parse st rest).2 u st₂ net₂ rreqs hR
      subst hrr
      cases net₂ with
      | nil =>
        have hM : makeRequest parse st (resp :: rest) endpoint =
            (.error "failed to retry request", st₂,
              [.api st.accessToken endpoint, .tokenRefresh,
                .api st₂.accessToken endpoint]) := by
          simp [makeRequest, hTok, hcond, hR]
        rw [hM]
        exact ⟨rfl, rfl, fun r₂ t₂ h => absurd h (by simp), fun _ => rfl⟩
      | cons resp₂ t₂ =>
        by_cases h200 : resp₂.status = 200
        · have hM : makeRequest parse st (resp :: rest) endpoint =
              (.ok resp₂.body, st₂,
                [.api st.accessToken endpoint, .tokenRefresh,
                  .api st₂.accessToken endpoint]) := by
            simp [makeRequest, hTok, hcond, hR, h200]
          rw [hM]
          refine ⟨rfl, rfl, ?_, fun h => absurd h (by simp)⟩
          intro r₂ u₂ hcons
          injection hcons with hh ht
          subst hh
          exact ⟨fun _ => rfl, fun hne => absurd h200 hne⟩
        · have hM : makeRequest parse st (resp :: rest) endpoint =
              (.error ("Yahoo API error (status " ++ toString resp₂.status ++ "): " ++
                resp₂.body), st₂,
                [.api st.accessToken endpoint, .tokenRefresh,
                  .api st₂.accessToken endpoint]) := by
            simp [makeRequest, hTok, hcond, hR, h200]
          rw [hM]
          refine ⟨rfl, rfl, ?_, fun h => absurd h (by simp)⟩
          intro r₂ u₂ hcons
          injection hcons with hh ht
          subst hh
          exact ⟨fun h => absurd h h200, fun _ => rfl⟩

/-- A concrete `json.Unmarshal` model for the witness: one recognized
token-response body. -/
def demoParse : String → Option TokenResponse := fun s =>
  if s = "TOKENJSON" then some ⟨"new", "r2", 3600⟩ else none

/-- Closed witness for `makeRequest_retry_policy`: a marker 401
followed by a good token response and a good retry response yields the
retried body and the trace GET, token POST, GET-with-new-token. -/
theorem makeRequest_retry_policy_witness :
    (makeRequest demoParse ⟨"old", "r"⟩
        [⟨401, "oops token_expired"⟩, ⟨200, "TOKENJSON"⟩, ⟨200, "payload"⟩] "leagues").1 =
      .ok "payload" ∧
    (makeRequest demoParse ⟨"old", "r"⟩
        [⟨401, "oops token_expired"⟩, ⟨200, "TOKENJSON"⟩, ⟨200, "payload"⟩] "leagues").2.2 =
      [.api "old" "leagues", .tokenRefresh, .api "new" "leagues"] := by
  have h := (makeRequest_retry_policy demoParse ⟨"old", "r"⟩ "leagues"
      ⟨401, "oops token_expired"⟩ [⟨200, "TOKENJSON"⟩, ⟨200, "payload"⟩]
      (by decide)).2 rfl (by decide)
  have h2 := h.2 () ⟨"new", "r2"⟩ [⟨200, "payload"⟩] [.tokenRefresh] rfl
  have h3 := (h2.2.2.1 ⟨200, "payload"⟩ [] rfl).1 rfl
  exact ⟨h3, h2.2.1⟩

end YF













